import Mathlib

/-!
Verification development for the build-orchestration engine of
`portable-python` (`src/portable_python/builder/__init__.py`).

The Python source is shallowly embedded: pure functions become Lean
functions, the mutable classification / environment / logging state is
passed explicitly, and side-effecting pipeline steps are reified as
event traces.  Helpers from the external `runez` library (absent from
the repository) are modelled from the specification's description of
their behaviour; each such definition is marked `Modelled from the
spec:` in its doc comment.
-/

namespace PortablePython

/-! ## Generic helpers (runez) -/

/-- One step of order-preserving deduplication: append the value unless
it was already collected (`if value not in result: result.append(value)`). -/
def dedup_step (acc : List String) (x : String) : List String :=
  if x ∈ acc then acc else acc ++ [x]

/-- Modelled from the spec: order-preserving deduplication keeping the
first occurrence of each name, as performed by `runez.flattened` per the
spec ("deduplicated, order preserved"). -/
def dedup_first (l : List String) : List String :=
  l.foldl dedup_step []

/-- Python `s.split(sep)` for a single-character separator, at the
character-list level (`"a,,b" → ["a", "", "b"]`, `"" → [""]`). -/
def split_on_char (sep : Char) : List Char → List (List Char)
  | [] => [[]]
  | c :: cs =>
    match split_on_char sep cs with
    | [] => [[c]]
    | g :: gs => if c = sep then [] :: g :: gs else (c :: g) :: gs

/-- Python `s.split(",")`. -/
def split_on_comma (s : String) : List String :=
  (split_on_char ',' s.data).map String.mk

/-- Modelled from the spec: `runez.flattened(names, keep_empty=None, split=",")`
— flatten the given entries, split each on commas, discard empty entries,
deduplicate keeping the first occurrence, order preserved. -/
def flattened_names (xs : List String) : List String :=
  dedup_first (((xs.map split_on_comma).flatten).filter (· ≠ ""))

/-- `delimiter.join(fragments)` (Python `str.join`). -/
def join_frags (delim : String) : List String → String
  | [] => ""
  | [x] => x
  | x :: xs => x ++ delim ++ join_frags delim xs

/-- Modelled from the spec: `runez.joined(value, delimiter=d, keep_empty=None)`
— discard empty/falsy fragments, then join the rest with the delimiter in
yield order. -/
def rz_joined (delim : String) (frags : List String) : String :=
  join_frags delim (frags.filter (· ≠ ""))

/-- Python `f"{n:02}"`: decimal representation zero-padded to width two. -/
def pad2 (n : Nat) : String :=
  if n < 10 then "0" ++ Nat.repr n else Nat.repr n

/-- Python `str.partition(sep)` on the character list of the string:
returns (part before the first separator, whether a separator was found,
part after the first separator). -/
def partition3 (sep : Char) : List Char → List Char × Bool × List Char
  | [] => ([], false, [])
  | c :: cs =>
    if c = sep then ([], true, cs)
    else
      let r := partition3 sep cs
      (c :: r.1, r.2.1, r.2.2)

/-! ## TargetSystem -/

/-- `TargetSystem`: the (platform, architecture) pair being compiled for. -/
structure TargetSystem where
  platform : String
  architecture : String
deriving DecidableEq, Repr

/-- `TargetSystem.__init__`: `plat, _, arch = target.partition("-")` when a
non-empty target string is given (Python truthiness: `if target:`), then
`architecture = arch or platform.machine()` and
`platform = plat or platform.system().lower()` — empty parts fall back to
the running host's values `host_machine` / `host_platform`. -/
def TargetSystem.ofTarget (host_machine host_platform : String) :
    Option String → TargetSystem
  | none => ⟨host_platform, host_machine⟩
  | some t =>
    if t = "" then ⟨host_platform, host_machine⟩
    else
      let r := partition3 '-' t.data
      { platform := if r.1 = [] then host_platform else String.mk r.1
        architecture := if r.2.2 = [] then host_machine else String.mk r.2.2 }

/-- `TargetSystem.sdk_folder`. -/
def TargetSystem.sdk_folder (t : TargetSystem) : Option String :=
  if t.platform = "darwin"
  then some "/Library/Developer/CommandLineTools/SDKs/MacOSX.sdk"
  else none

/-- `TargetSystem.sys_include`. -/
def TargetSystem.sys_include (t : TargetSystem) : String :=
  match t.sdk_folder with
  | some sdk => sdk ++ "/usr/include"
  | none => "/usr/include"

/-! ## Module descriptors and the registry -/

/-- Static data of a concrete `ModuleBuilder` subclass: registry name,
platform restriction (`needs_platforms`, empty list for `None`), and the
flattened telltale path templates. -/
structure ModuleDescr where
  mname : String
  needs_platforms : List String := []
  telltale : List String := []
deriving DecidableEq, Repr

/-- `TargetSystem.is_applicable`: no platform restriction, or the target's
platform is in the restriction list. -/
def TargetSystem.is_applicable (t : TargetSystem) (m : ModuleDescr) : Bool :=
  m.needs_platforms.isEmpty || m.needs_platforms.contains t.platform

/-- `ModuleBuilder.skip_reason`: a reason iff `needs_platforms` is set and
the target is not applicable. -/
def skip_reason (t : TargetSystem) (m : ModuleDescr) : Option String :=
  if !m.needs_platforms.isEmpty && !(t.is_applicable m)
  then some (join_frags "/" m.needs_platforms ++ " only")
  else none

/-- `ModuleBuilder.existing_telltale`: first formatted telltale path that
exists on the host filesystem `fs`. -/
def existing_telltale (fs : String → Bool) (t : TargetSystem)
    (m : ModuleDescr) : Option String :=
  (m.telltale.map (fun tt => tt.replace "{include}" t.sys_include)).find? fs

/-- The registry (`AvailableBuilders.available`): an insertion-ordered
name-keyed mapping, modelled as a list of descriptors. -/
abbrev Registry := List ModuleDescr

/-- `AvailableBuilders.get_builder` (lookup part): the registered
descriptor under the given name, if any. -/
def get_builder (reg : Registry) (name : String) : Option ModuleDescr :=
  reg.find? (fun m => m.mname == name)

/-- `list(self.module_builders.available.keys())`. -/
def available_keys (reg : Registry) : List String :=
  reg.map (·.mname)

/-- `AvailableBuilders.without_telltale`: names of registered modules that
declare a telltale, are applicable to the target, and whose telltale file
is absent on the host. -/
def without_telltale (fs : String → Bool) (reg : Registry)
    (t : TargetSystem) : List String :=
  (reg.filter (fun m =>
    !m.telltale.isEmpty && t.is_applicable m
      && (existing_telltale fs t m).isNone)).map (·.mname)

/-! ## Module selection and classification (BuildSetup.__init__) -/

/-- The `modules` argument of `BuildSetup.__init__`: a plain string or a
sequence of strings (Python compares the whole value to `"none"`/`"all"`
and tests truthiness). -/
inductive ModuleSelection where
  | strSel (s : String)
  | listSel (xs : List String)
deriving DecidableEq, Repr

/-- `BuildSetup.resolved_module_names`. -/
def resolved_module_names (fs : String → Bool) (reg : Registry)
    (t : TargetSystem) : ModuleSelection → List String
  | .strSel s =>
    if s = "none" then []
    else if s = "all" then available_keys reg
    else if s = "" then without_telltale fs reg t
    else flattened_names [s]
  | .listSel xs =>
    if xs = [] then without_telltale fs reg t
    else flattened_names xs

/-- The three classification lists built by `BuildSetup.__init__`. -/
structure BuildState where
  active_modules : List ModuleDescr
  skipped_modules : List ModuleDescr
  unknown_modules : List String
deriving DecidableEq, Repr

/-- The classification loop of `BuildSetup.__init__`: for each resolved
name in order, an unregistered name is appended to `unknown_modules`, a
registered one with a skip reason to `skipped_modules`, any other to
`active_modules`. -/
def classify (reg : Registry) (t : TargetSystem) : List String → BuildState
  | [] => ⟨[], [], []⟩
  | n :: rest =>
    let c := classify reg t rest
    match get_builder reg n with
    | none => ⟨c.active_modules, c.skipped_modules, n :: c.unknown_modules⟩
    | some m =>
      match skip_reason t m with
      | some _ => ⟨c.active_modules, m :: c.skipped_modules, c.unknown_modules⟩
      | none => ⟨m :: c.active_modules, c.skipped_modules, c.unknown_modules⟩

/-- The classification a single name receives. -/
inductive MClass where
  | activeC
  | skippedC
  | unknownC
deriving DecidableEq, Repr

/-- Classification of one resolved name, mirroring the branch taken by the
loop body of `BuildSetup.__init__`. -/
def class_of (reg : Registry) (t : TargetSystem) (n : String) : MClass :=
  match get_builder reg n with
  | none => .unknownC
  | some m => if (skip_reason t m).isSome then .skippedC else .activeC

/-- Module resolution plus classification, as performed by
`BuildSetup.__init__` after folder computation. -/
def build_setup_init (fs : String → Bool) (reg : Registry)
    (t : TargetSystem) (sel : ModuleSelection) : BuildState :=
  classify reg t (resolved_module_names fs reg t sel)

/-! ## BuildSetup.compile as an event trace -/

/-- Observable steps of `BuildSetup.compile`. -/
inductive BuildEvent where
  | ensureFolder (clean : Bool)
  | abortUnknown (names : List String)
  | compileModule (name : String)
  | compilePython
deriving DecidableEq, Repr

/-- `BuildSetup.compile(x_debug)`: ensure (and clear unless debugging) the
build folder, then abort if any unknown modules were recorded, else
compile each active module in order and finally the interpreter.
`runez.abort` raises, ending the run. -/
def buildsetup_compile (st : BuildState) (x_debug : Bool) : List BuildEvent :=
  BuildEvent.ensureFolder (!x_debug) ::
    (if st.unknown_modules ≠ [] then
      [BuildEvent.abortUnknown st.unknown_modules]
    else
      (st.active_modules.map (fun m => BuildEvent.compileModule m.mname))
        ++ [BuildEvent.compilePython])

/-! ## Environment derivation (ModuleBuilder._setup_env) -/

/-- Python `name.startswith("xenv_")`, at the character-list level. -/
def starts_with_xenv (n : String) : Bool :=
  n.data.take 5 == "xenv_".data

/-- Python `s.endswith(suf)`, at the character-list level. -/
def ends_with (s suf : String) : Bool :=
  s.data.drop (s.data.length - suf.data.length) == suf.data

/-- Python `s.upper()` (ASCII attribute names), at the character-list level. -/
def upper (s : String) : String :=
  String.mk (s.data.map Char.toUpper)

/-- `func_name[5:].upper()`: the exported variable name of an exporter. -/
def var_of (fn : String) : String :=
  upper (String.mk (fn.data.drop 5))

/-- The delimiter chosen by `_setup_env`: the platform's path-list
separator (`os.pathsep`) when the variable name ends in "PATH", a single
space otherwise. -/
def delim_for (pathsep name : String) : String :=
  if ends_with name "PATH" then pathsep else " "

/-- The attribute surface of one module builder relevant to `_setup_env`:
each generator attribute name paired with the fragments it yields
(a missing dependency folder yields a falsy fragment, modelled `""`). -/
structure ModuleEnvSpec where
  attrs : List (String × List String)

/-- `ModuleBuilder.exported_env_vars`: `sorted(dir(self))` filtered to the
names starting with `"xenv_"` (Python's `sorted` is a total lexicographic
sort on code points, embedded as an insertion sort over the character-list
order). -/
def exported_env_vars (m : ModuleEnvSpec) : List String :=
  (List.insertionSort (fun a b : String => a.toList ≤ b.toList)
    (m.attrs.map Prod.fst)).filter starts_with_xenv

/-- The fragments `getattr(self, func_name)()` yields. -/
def attr_frags (m : ModuleEnvSpec) (fn : String) : List String :=
  ((m.attrs.find? (fun p => p.1 == fn)).map Prod.snd).getD []

/-- The process environment table (`os.environ`), as an association list. -/
abbrev Env := List (String × String)

/-- `os.environ[key] = value`. -/
def setenv : Env → String → String → Env
  | [], k, v => [(k, v)]
  | (k', v') :: rest, k, v =>
    if k' = k then (k, v) :: rest else (k', v') :: setenv rest k v

/-- `os.environ.get(key)`. -/
def getEnv : Env → String → Option String
  | [], _ => none
  | (k', v') :: rest, k => if k' = k then some v' else getEnv rest k

/-- One iteration of the `_setup_env` loop: compute the variable name and
delimiter, join the exporter's fragments discarding falsy ones, and set
the variable only when the joined value is non-empty. -/
def setup_env_step (pathsep : String) (m : ModuleEnvSpec) (env : Env)
    (fn : String) : Env :=
  let name := var_of fn
  let value := rz_joined (delim_for pathsep name) (attr_frags m fn)
  if value = "" then env else setenv env name value

/-- `ModuleBuilder._setup_env`: fold the per-exporter step over the sorted
`xenv_`-prefixed exporter names. -/
def setup_env (pathsep : String) (m : ModuleEnvSpec) (env : Env) : Env :=
  (exported_env_vars m).foldl (setup_env_step pathsep m) env

/-! ## Log sequencing (BuildSetup._get_logs_path) -/

/-- The basename `f"{self._log_counter:02}-{name}.log"`. -/
def log_basename (n : Nat) (name : String) : String :=
  pad2 n ++ "-" ++ name ++ ".log"

/-- `BuildSetup._get_logs_path`: increment the log counter and allocate
the log file basename for that compilation. -/
def get_logs_path (counter : Nat) (name : String) : Nat × String :=
  (counter + 1, log_basename (counter + 1) name)

/-- Basenames allocated to a sequence of compilations within one
`BuildSetup`, whose counter starts at `counter` (0 for a fresh setup). -/
def allocated_logs (counter : Nat) : List String → List String
  | [] => []
  | n :: ns =>
    (get_logs_path counter n).2 :: allocated_logs (get_logs_path counter n).1 ns

/-! ## Scoped log capture (ModuleBuilder.captured_logs) -/

/-- The logging state: the global sink's handler list (`logging.root`)
and the module's `_log_handler` reference, handlers named by ids. -/
structure LogState where
  root_handlers : List Nat
  log_handler : Option Nat
deriving DecidableEq, Repr

/-- `ModuleBuilder.captured_logs` around a module body: install a freshly
created file handler when the logs folder exists, run the body (which may
raise), then in the `finally` block remove the recorded handler from the
global sink and reset the reference to `None`.  Returns the final logging
state and whether the call raised (the `finally` re-raises). -/
def captured_logs_run (s : LogState) (fresh : Nat) (parent_is_dir : Bool)
    (body_raises : Bool) : LogState × Bool :=
  let s1 := if parent_is_dir
    then { root_handlers := s.root_handlers ++ [fresh], log_handler := some fresh }
    else s
  let s2 := match s1.log_handler with
    | some h => { root_handlers := s1.root_handlers.erase h,
                  log_handler := (none : Option Nat) }
    | none => s1
  (s2, body_raises)

/-! ## ModuleBuilder.compile as an event trace -/

/-- Observable steps of `ModuleBuilder.compile`. -/
inductive MEvent where
  | unpack
  | setupEnvStep
  | prepareHook
  | dispatch (platform : String)
  | abortPlatform (platform : String)
  | finalizeHook
deriving DecidableEq, Repr

/-- `ModuleBuilder.compile(x_debug)` inside `captured_logs`: unless
debugging with an already-existing build folder, unpack, set up the
environment, run `_prepare`, then dispatch `_do_<platform>_compile`
(aborting when no such method exists); finally run `_finalize` (reached
only when no abort was raised). -/
def module_compile_events (x_debug folder_exists : Bool) (platform : String)
    (dispatchable : String → Bool) : List MEvent :=
  if !x_debug || !folder_exists then
    if dispatchable platform then
      [MEvent.unpack, MEvent.setupEnvStep, MEvent.prepareHook,
        MEvent.dispatch platform, MEvent.finalizeHook]
    else
      [MEvent.unpack, MEvent.setupEnvStep, MEvent.prepareHook,
        MEvent.abortPlatform platform]
  else [MEvent.finalizeHook]

/-- The platform dispatch methods defined by the `ModuleBuilder` base
class: `_do_linux_compile` and `_do_darwin_compile`. -/
def base_dispatch (p : String) : Bool :=
  p == "linux" || p == "darwin"

/-! ## Version validation (SupportedPythonVersions.validate) -/

/-- Modelled from the spec: the relevant surface of `runez.pyenv.Version`
(absent from the repository) — a parsed version is well-formed
(`is_valid`) independently of being final (`is_final`, i.e. not a
prerelease); equality compares the parsed version. -/
structure PyVersionM where
  text : String
  is_valid : Bool
  is_final : Bool
deriving DecidableEq, Repr

/-- `PythonVersions`: a family name with its curated version list. -/
structure PythonVersionsM where
  family : String
  versions : List PyVersionM
deriving DecidableEq, Repr

/-- Modelled from the spec: `runez.pyenv.PythonSpec` — a (family,
version) pair, the version absent when the spec text has none. -/
structure PythonSpecM where
  family : String
  version : Option PyVersionM
deriving DecidableEq, Repr

/-- The curated `CPYTHON_VERSIONS` list. -/
def cpython_supported : PythonVersionsM :=
  ⟨"cpython",
    [⟨"3.9.6", true, true⟩, ⟨"3.9.5", true, true⟩, ⟨"3.8.9", true, true⟩,
      ⟨"3.7.9", true, true⟩, ⟨"3.6.9", true, true⟩]⟩

/-- `SupportedPythonVersions`: family list with cpython only. -/
def supported_families : List PythonVersionsM := [cpython_supported]

/-- Outcome of `SupportedPythonVersions.validate`: the two fatal aborts,
the accepted-with-warning path, and plain acceptance. -/
inductive ValidateOutcome where
  | invalidSpec
  | unknownFamily (f : String)
  | warned
  | accepted
deriving DecidableEq, Repr

/-- `SupportedPythonVersions.validate`: abort when the version is missing
or not well-formed; abort when the family is not registered; warn (but
accept) when the well-formed version is not in the curated list. -/
def validate (sup : List PythonVersionsM) (spec : PythonSpecM) :
    ValidateOutcome :=
  match spec.version with
  | none => .invalidSpec
  | some v =>
    if !v.is_valid then .invalidSpec
    else
      match sup.find? (fun f => f.family == spec.family) with
      | none => .unknownFamily spec.family
      | some fam =>
        if fam.versions.contains v then .accepted else .warned

/-- Whether `validate` aborts fatally (`runez.abort` raises). -/
def validate_aborts (sup : List PythonVersionsM) (spec : PythonSpecM) : Bool :=
  match validate sup spec with
  | .invalidSpec => true
  | .unknownFamily _ => true
  | _ => false

/-! ## Concrete module descriptors (builder/db.py), used as witnesses -/

/-- `Gdbm` from `builder/db.py`: linux-only, telltale `{include}/gdbm.h`. -/
def gdbm : ModuleDescr := ⟨"gdbm", ["linux"], ["{include}/gdbm.h"]⟩

/-- `Bdb` from `builder/db.py`: no platform restriction, no telltale. -/
def bdb : ModuleDescr := ⟨"bdb", [], []⟩

/-- `Sqlite` from `builder/db.py`: telltale `{include}/sqlite3.h`. -/
def sqlite : ModuleDescr := ⟨"sqlite", [], ["{include}/sqlite3.h"]⟩

/-- The registry populated by the decorators of `builder/db.py`. -/
def db_registry : Registry := [gdbm, bdb, sqlite]

/-- A small module attribute surface in the style of `ModuleBuilder`
(one `xenv_` exporter whose middle fragment is a missing folder, plus a
non-exporter attribute), used to instantiate the environment theorems. -/
def sample_env_module : ModuleEnvSpec :=
  ⟨[("xenv_cpath", ["/deps/include", "", "/deps/include/openssl"]), ("url", [])]⟩

/-! # Theorems -/

/-! ## Classification (C1) -/

theorem get_builder_mname {reg : Registry} {n : String} {m : ModuleDescr}
    (h : get_builder reg n = some m) : m.mname = n := by
  have := List.find?_some h
  simpa using this

theorem classify_active_names (reg : Registry) (t : TargetSystem)
    (names : List String) :
    (classify reg t names).active_modules.map (·.mname)
      = names.filter (fun n => class_of reg t n == MClass.activeC) := by
  induction names with
  | nil => simp [classify]
  | cons n rest ih =>
    cases h : get_builder reg n with
    | none => simp [classify, h, class_of, ih]
    | some m =>
      cases h2 : skip_reason t m with
      | none => simp [classify, h, h2, class_of, ih, get_builder_mname h]
      | some r => simp [classify, h, h2, class_of, ih]

theorem classify_skipped_names (reg : Registry) (t : TargetSystem)
    (names : List String) :
    (classify reg t names).skipped_modules.map (·.mname)
      = names.filter (fun n => class_of reg t n == MClass.skippedC) := by
  induction names with
  | nil => simp [classify]
  | cons n rest ih =>
    cases h : get_builder reg n with
    | none => simp [classify, h, class_of, ih]
    | some m =>
      cases h2 : skip_reason t m with
      | none => simp [classify, h, h2, class_of, ih]
      | some r => simp [classify, h, h2, class_of, ih, get_builder_mname h]

theorem classify_unknown_names (reg : Registry) (t : TargetSystem)
    (names : List String) :
    (classify reg t names).unknown_modules
      = names.filter (fun n => class_of reg t n == MClass.unknownC) := by
  induction names with
  | nil => simp [classify]
  | cons n rest ih =>
    cases h : get_builder reg n with
    | none => simp [classify, h, class_of, ih]
    | some m =>
      cases h2 : skip_reason t m with
      | none => simp [classify, h, h2, class_of, ih]
      | some r => simp [classify, h, h2, class_of, ih]

theorem count_filter_eq (p : String → Bool) (names : List String)
    (n : String) :
    (names.filter p).count n = if p n then names.count n else 0 := by
  split
  · exact List.count_filter (by assumption)
  · refine List.count_eq_zero.mpr (fun hmem => ?_)
    have := List.of_mem_filter hmem
    simp_all

/-- C1: for every requested module list, each resolved name is classified
into exactly one of active / skipped / unknown according to registry
lookup and the builder's skip reason, each list preserving resolution
order (it is the order-preserving filter of the requested names by
classification), and the three lists partition the requested names:
no name is duplicated across lists and none is dropped. -/
theorem C1_classification_partition (reg : Registry) (t : TargetSystem)
    (names : List String) :
    (classify reg t names).active_modules.map (·.mname)
        = names.filter (fun n => class_of reg t n == MClass.activeC)
    ∧ (classify reg t names).skipped_modules.map (·.mname)
        = names.filter (fun n => class_of reg t n == MClass.skippedC)
    ∧ (classify reg t names).unknown_modules
        = names.filter (fun n => class_of reg t n == MClass.unknownC)
    ∧ ∀ n : String,
        names.count n
          = ((classify reg t names).active_modules.map (·.mname)).count n
            + ((classify reg t names).skipped_modules.map (·.mname)).count n
            + (classify reg t names).unknown_modules.count n := by
  refine ⟨classify_active_names reg t names, classify_skipped_names reg t names,
    classify_unknown_names reg t names, fun n => ?_⟩
  rw [classify_active_names, classify_skipped_names, classify_unknown_names,
    count_filter_eq, count_filter_eq, count_filter_eq]
  cases h : class_of reg t n <;> simp [h]

/-! ## BuildSetup.compile fail-fast (C2) -/

/-- C2 counterexample: with unknown modules recorded (`["foo"]`) and
debug mode off, `BuildSetup.compile` still emits the ensure-build-folder
step (with `clean=True`) before checking `unknown_modules` — the code
runs `runez.ensure_folder(self.build_folder, clean=not x_debug)` before
the unknown-modules guard, so the build-folder tree IS created and
cleared, contradicting the claim. -/
theorem C2_counterexample :
    (BuildState.mk [] [] ["foo"]).unknown_modules ≠ []
    ∧ BuildEvent.ensureFolder true
        ∈ buildsetup_compile (BuildState.mk [] [] ["foo"]) false := by
  decide

/-- C2 amended: when the unknown-modules list is non-empty,
`BuildSetup.compile` aborts reporting all unknown names at once, and no
active module's compile and not the interpreter's compile is run; the
build-folder tree is, however, ensured (and cleared unless in debug mode)
before the check. -/
theorem C2_fail_fast (st : BuildState) (x_debug : Bool)
    (h : st.unknown_modules ≠ []) :
    buildsetup_compile st x_debug
        = [BuildEvent.ensureFolder (!x_debug),
            BuildEvent.abortUnknown st.unknown_modules]
    ∧ (∀ n, BuildEvent.compileModule n ∉ buildsetup_compile st x_debug)
    ∧ BuildEvent.compilePython ∉ buildsetup_compile st x_debug := by
  refine ⟨by simp [buildsetup_compile, h], ?_, ?_⟩ <;>
    simp [buildsetup_compile, h]

/-- Witness for C2's amended theorem at a concrete build state. -/
theorem C2_fail_fast_witness :
    buildsetup_compile (BuildState.mk [bdb] [] ["foo"]) true
      = [BuildEvent.ensureFolder false, BuildEvent.abortUnknown ["foo"]] :=
  (C2_fail_fast (BuildState.mk [bdb] [] ["foo"]) true (by decide)).1

/-! ## "none" and "all" selections (C4) -/

theorem get_builder_isSome_of_mem {reg : Registry} {n : String}
    (h : n ∈ available_keys reg) : (get_builder reg n).isSome := by
  rw [get_builder, List.find?_isSome]
  obtain ⟨m, hm, rfl⟩ := List.mem_map.mp h
  exact ⟨m, hm, by simp⟩

/-- C4: resolving `"none"` yields empty active, skipped, and unknown
lists; resolving `"all"` resolves to every registered module name, the
unknown list stays empty, and the active and skipped names together are
exactly the registered names. -/
theorem C4_none_all (fs : String → Bool) (reg : Registry) (t : TargetSystem) :
    build_setup_init fs reg t (.strSel "none") = BuildState.mk [] [] []
    ∧ resolved_module_names fs reg t (.strSel "all") = available_keys reg
    ∧ (build_setup_init fs reg t (.strSel "all")).unknown_modules = []
    ∧ ((build_setup_init fs reg t (.strSel "all")).active_modules.map (·.mname)
        ++ (build_setup_init fs reg t (.strSel "all")).skipped_modules.map
            (·.mname)).Perm (available_keys reg) := by
  have hres : resolved_module_names fs reg t (.strSel "all")
      = available_keys reg := by
    simp [resolved_module_names]
  have hcls : ∀ n ∈ available_keys reg, class_of reg t n ≠ MClass.unknownC := by
    intro n hn
    have hsome := get_builder_isSome_of_mem hn
    cases hgb : get_builder reg n with
    | none => rw [hgb] at hsome; simp at hsome
    | some m =>
      simp only [class_of, hgb]
      split <;> simp
  refine ⟨rfl, hres, ?_, ?_⟩
  · rw [build_setup_init, hres, classify_unknown_names]
    refine List.filter_eq_nil_iff.mpr (fun n hn => ?_)
    have := hcls n hn
    simpa using this
  · rw [build_setup_init, hres, classify_active_names, classify_skipped_names]
    have hcongr : (available_keys reg).filter
        (fun n => class_of reg t n == MClass.skippedC)
        = (available_keys reg).filter
          (fun n => !(class_of reg t n == MClass.activeC)) := by
      refine List.filter_congr (fun n hn => ?_)
      have := hcls n hn
      cases h : class_of reg t n <;> simp_all
    rw [hcongr]
    exact List.filter_append_perm _ _

/-! ## Explicit module selection (C5) -/

theorem dedup_loop_suffix (l : List String) (acc : List String) :
    ∃ r, l.foldl dedup_step acc = acc ++ r ∧ r.Sublist l := by
  induction l generalizing acc with
  | nil => exact ⟨[], by simp⟩
  | cons x xs ih =>
    rw [List.foldl_cons, dedup_step]
    by_cases hx : x ∈ acc
    · obtain ⟨r, hr, hs⟩ := ih acc
      exact ⟨r, by simpa [hx] using hr, hs.cons x⟩
    · obtain ⟨r, hr, hs⟩ := ih (acc ++ [x])
      refine ⟨x :: r, ?_, hs.cons₂ x⟩
      simpa [hx, List.append_assoc] using hr

theorem dedup_loop_mem (l : List String) (acc : List String) (n : String) :
    n ∈ l.foldl dedup_step acc ↔ n ∈ acc ∨ n ∈ l := by
  induction l generalizing acc with
  | nil => simp
  | cons x xs ih =>
    rw [List.foldl_cons, ih, dedup_step]
    by_cases hx : x ∈ acc
    · by_cases hn : n = x
      · simp [hx, hn]
      · simp [hx, hn]
    · simp [hx, or_assoc]

theorem dedup_loop_nodup (l : List String) (acc : List String)
    (h : acc.Nodup) : (l.foldl dedup_step acc).Nodup := by
  induction l generalizing acc with
  | nil => simpa
  | cons x xs ih =>
    rw [List.foldl_cons, dedup_step]
    by_cases hx : x ∈ acc
    · simpa [hx] using ih acc h
    · rw [if_neg hx]
      refine ih (acc ++ [x]) ?_
      simp [List.nodup_append, h, hx]

theorem dedup_first_sublist (l : List String) : (dedup_first l).Sublist l := by
  obtain ⟨r, hr, hs⟩ := dedup_loop_suffix l []
  rw [dedup_first, hr]
  simpa using hs

theorem mem_dedup_first (l : List String) (n : String) :
    n ∈ dedup_first l ↔ n ∈ l := by
  rw [dedup_first, dedup_loop_mem]
  simp

theorem dedup_first_nodup (l : List String) : (dedup_first l).Nodup :=
  dedup_loop_nodup l [] List.nodup_nil

/-- C5: a selection that is neither `"none"`, `"all"` nor empty resolves
to the flattened comma-split name list with empty entries discarded and
duplicates removed keeping the first occurrence (order preserved: the
result is a sublist of the split list); consequently a name requested
twice contributes at most one entry to each classification list. -/
theorem C5_explicit_selection (fs : String → Bool) (reg : Registry)
    (t : TargetSystem) (s : String) (xs : List String)
    (hs1 : s ≠ "none") (hs2 : s ≠ "all") (hs3 : s ≠ "") (hxs : xs ≠ []) :
    resolved_module_names fs reg t (.strSel s) = flattened_names [s]
    ∧ resolved_module_names fs reg t (.listSel xs) = flattened_names xs
    ∧ (flattened_names xs).Nodup
    ∧ (flattened_names xs).Sublist
        (((xs.map split_on_comma).flatten).filter (· ≠ ""))
    ∧ (∀ n, n ∈ flattened_names xs
        ↔ (n ∈ (xs.map split_on_comma).flatten ∧ n ≠ ""))
    ∧ (∀ n,
        ((build_setup_init fs reg t (.listSel xs)).active_modules.map
            (·.mname)).count n ≤ 1
        ∧ ((build_setup_init fs reg t (.listSel xs)).skipped_modules.map
            (·.mname)).count n ≤ 1
        ∧ (build_setup_init fs reg t (.listSel xs)).unknown_modules.count n
            ≤ 1) := by
  have hres : resolved_module_names fs reg t (.listSel xs) = flattened_names xs := by
    simp [resolved_module_names, hxs]
  have hcount : ∀ n, (flattened_names xs).count n ≤ 1 :=
    List.nodup_iff_count_le_one.mp (dedup_first_nodup _)
  refine ⟨by simp [resolved_module_names, hs1, hs2, hs3], hres,
    dedup_first_nodup _, dedup_first_sublist _, fun n => ?_, fun n => ?_⟩
  · rw [flattened_names, mem_dedup_first, List.mem_filter]
    simp
  · rw [build_setup_init, hres]
    rw [classify_active_names, classify_skipped_names, classify_unknown_names]
    exact ⟨((List.filter_sublist _).count_le n).trans (hcount n),
      ((List.filter_sublist _).count_le n).trans (hcount n),
      ((List.filter_sublist _).count_le n).trans (hcount n)⟩

/-- Witness for C5 at a concrete duplicated request. -/
theorem C5_explicit_selection_witness :
    resolved_module_names (fun _ => false) db_registry
        (TargetSystem.mk "linux" "x86_64") (.listSel ["gdbm,foo,gdbm", "bdb"])
      = ["gdbm", "foo", "bdb"]
    ∧ ((build_setup_init (fun _ => false) db_registry
        (TargetSystem.mk "linux" "x86_64")
        (.listSel ["gdbm,foo,gdbm", "bdb"])).active_modules.map
          (·.mname)).count "gdbm" ≤ 1 := by
  have h := C5_explicit_selection (fun _ => false) db_registry
    (TargetSystem.mk "linux" "x86_64") "zlib" ["gdbm,foo,gdbm", "bdb"]
    (by decide) (by decide) (by decide) (by decide)
  exact ⟨h.2.1.trans (by decide), (h.2.2.2.2.2 "gdbm").1⟩

/-! ## Log sequencing (C6) -/

theorem pad2_data_of_lt_100 :
    ∀ m, m < 100 →
      (pad2 m).data = [Nat.digitChar (m / 10), Nat.digitChar (m % 10)] := by
  decide

theorem digitChar_lt_digitChar :
    ∀ a, a < 10 → ∀ b, b < 10 → a < b → Nat.digitChar a < Nat.digitChar b := by
  decide

theorem log_basename_data (n : Nat) (a : String) (h : n < 100) :
    (log_basename n a).data
      = Nat.digitChar (n / 10) :: Nat.digitChar (n % 10)
          :: ('-' :: (a.data ++ ".log".data)) := by
  show ((pad2 n ++ "-" ++ a ++ ".log").data) = _
  rw [String.data_append, String.data_append, String.data_append,
    pad2_data_of_lt_100 n h]
  simp

theorem log_basename_lt {i j : Nat} (a b : String) (hij : i < j)
    (hj : j ≤ 99) : log_basename i a < log_basename j b := by
  rw [String.lt_iff_toList_lt]
  show List.Lex (· < ·) (log_basename i a).data (log_basename j b).data
  rw [log_basename_data i a (by omega), log_basename_data j b (by omega)]
  have hi10 : i / 10 < 10 := Nat.div_lt_of_lt_mul (by omega)
  have hj10 : j / 10 < 10 := Nat.div_lt_of_lt_mul (by omega)
  rcases Nat.lt_or_ge (i / 10) (j / 10) with hlt | hge
  · exact List.Lex.rel (digitChar_lt_digitChar _ hi10 _ hj10 hlt)
  · have hdiv : i / 10 = j / 10 :=
      Nat.le_antisymm (Nat.div_le_div_right (Nat.le_of_lt hij)) hge
    have hmod : i % 10 < j % 10 := by
      have h1 := Nat.div_add_mod i 10
      have h2 := Nat.div_add_mod j 10
      omega
    rw [hdiv]
    exact List.Lex.cons (List.Lex.rel
      (digitChar_lt_digitChar _ (Nat.mod_lt _ (by omega))
        _ (Nat.mod_lt _ (by omega)) hmod))

theorem allocated_logs_append (l1 l2 : List String) :
    ∀ c, allocated_logs c (l1 ++ l2)
      = allocated_logs c l1 ++ allocated_logs (c + l1.length) l2 := by
  induction l1 with
  | nil => intro c; simp [allocated_logs]
  | cons n ns ih =>
    intro c
    rw [show (n :: ns) ++ l2 = n :: (ns ++ l2) from rfl, allocated_logs,
      allocated_logs]
    simp only [get_logs_path]
    rw [ih (c + 1), show (n :: ns).length = ns.length + 1 from rfl,
      show c + 1 + ns.length = c + (ns.length + 1) from by omega]
    rfl

theorem mem_allocated_logs {b : String} (l : List String) :
    ∀ c, b ∈ allocated_logs c l →
      ∃ k nm, c < k ∧ k ≤ c + l.length ∧ b = log_basename k nm := by
  induction l with
  | nil => intro c h; simp [allocated_logs] at h
  | cons n ns ih =>
    intro c h
    rw [allocated_logs, List.mem_cons] at h
    rcases h with h | h
    · exact ⟨c + 1, n, by omega, by simp, h⟩
    · obtain ⟨k, nm, h1, h2, h3⟩ := ih (c + 1) h
      exact ⟨k, nm, by omega, by simp only [List.length_cons]; omega, h3⟩

/-- C6 counterexample: in a setup that performs 100 compilations (all of
module name "m"), the lexicographic order of the allocated log basenames
does not reproduce execution order: the 100th file `100-m.log` sorts
before the 99th file `99-m.log`, because the counter is only zero-padded
to two digits. -/
theorem C6_counterexample :
    ¬ List.Pairwise (· < ·) (allocated_logs 0 (List.replicate 100 "m")) := by
  intro h
  have e : List.replicate 100 "m"
      = List.replicate 98 "m" ++ List.replicate 2 "m" := by
    rw [← List.replicate_add]
  rw [e, allocated_logs_append] at h
  have h2 := (List.pairwise_append.mp h).2.1
  have e2 : allocated_logs (0 + (List.replicate 98 "m").length)
      (List.replicate 2 "m") = ["99-m.log", "100-m.log"] := by rfl
  rw [e2] at h2
  have h3 : ("99-m.log" : String) < "100-m.log" := by
    have := List.pairwise_cons.mp h2
    exact this.1 _ (by simp)
  rw [String.lt_iff_toList_lt] at h3
  exact absurd h3 (by decide)

/-- C6 amended: within one BuildSetup, as long as at most 99 log files
are allocated in total (the counter is zero-padded to two digits), the
allocated log basenames are strictly increasing in lexicographic order,
so sorting them reproduces execution order exactly, for any module names;
from the 100th compilation onward the guarantee no longer holds. -/
theorem C6_log_order (counter : Nat) (names : List String)
    (h : counter + names.length ≤ 99) :
    List.Pairwise (· < ·) (allocated_logs counter names) := by
  induction names generalizing counter with
  | nil => simp [allocated_logs]
  | cons n ns ih =>
    rw [allocated_logs]
    refine List.pairwise_cons.mpr ⟨fun b hb => ?_, ?_⟩
    · obtain ⟨k, nm, h1, h2, rfl⟩ := mem_allocated_logs ns _ hb
      simp only [get_logs_path] at h1 h2 ⊢
      refine log_basename_lt _ _ h1 ?_
      simp only [List.length_cons] at h
      omega
    · refine ih (counter + 1) ?_
      simp only [List.length_cons] at h
      omega

/-- Witness for C6's amended theorem on a concrete compilation sequence. -/
theorem C6_log_order_witness :
    List.Pairwise (fun a b : String => a < b)
      (allocated_logs 0 ["zlib", "openssl", "readline"]) :=
  C6_log_order 0 ["zlib", "openssl", "readline"] (by decide)

/-! ## Version-spec validation (C7) -/

/-- C7 counterexample: a well-formed but non-final (prerelease) version of
a supported family — `cpython:3.9.6rc1` — is NOT fatal: `validate` only
checks `version.is_valid`, never finality, so the spec is accepted with a
warning, contradicting the claim that non-final specs abort. -/
theorem C7_counterexample :
    (PyVersionM.mk "3.9.6rc1" true false).is_final = false
    ∧ validate supported_families
        (PythonSpecM.mk "cpython" (some (PyVersionM.mk "3.9.6rc1" true false)))
        = ValidateOutcome.warned
    ∧ validate_aborts supported_families
        (PythonSpecM.mk "cpython" (some (PyVersionM.mk "3.9.6rc1" true false)))
        = false := by
  decide

/-- C7 amended: validation aborts fatally if and only if the version is
missing or malformed (`is_valid` false), or the family is not a supported
family — finality is never consulted; a well-formed version of a
supported family that is absent from the curated list is accepted,
emitting only a warning. -/
theorem C7_validate (sup : List PythonVersionsM) (spec : PythonSpecM) :
    (validate_aborts sup spec = true
      ↔ (spec.version = none
          ∨ ∃ v, spec.version = some v
              ∧ (v.is_valid = false
                  ∨ sup.find? (fun f => f.family == spec.family) = none)))
    ∧ (∀ v fam, spec.version = some v → v.is_valid = true →
        sup.find? (fun f => f.family == spec.family) = some fam →
        fam.versions.contains v = false →
        validate sup spec = ValidateOutcome.warned) := by
  constructor
  · cases hv : spec.version with
    | none => simp [validate_aborts, validate, hv]
    | some v =>
      cases hval : v.is_valid with
      | false => simp [validate_aborts, validate, hv, hval]
      | true =>
        cases hf : sup.find? (fun f => f.family == spec.family) with
        | none => simp [validate_aborts, validate, hv, hval, hf]
        | some fam =>
          by_cases hm : v ∈ fam.versions <;>
            simp [validate_aborts, validate, hv, hval, hf, hm]
  · intro v fam hv hval hf hc
    have hm : v ∉ fam.versions := by simpa using hc
    simp [validate, hv, hval, hf, hm]

/-- Witness for C7's amended theorem: a well-formed final version outside
the curated list only warns. -/
theorem C7_validate_witness :
    validate supported_families
      (PythonSpecM.mk "cpython" (some (PyVersionM.mk "3.10.1" true true)))
      = ValidateOutcome.warned :=
  (C7_validate supported_families
    (PythonSpecM.mk "cpython" (some (PyVersionM.mk "3.10.1" true true)))).2
    (PyVersionM.mk "3.10.1" true true) cpython_supported rfl rfl
    (by decide) (by decide)

/-! ## Environment derivation (C3) -/

instance str_toList_le_total : IsTotal String (fun a b => a.toList ≤ b.toList) :=
  ⟨fun a b => le_total a.toList b.toList⟩

instance str_toList_le_trans : IsTrans String (fun a b => a.toList ≤ b.toList) :=
  ⟨fun _ _ _ h1 h2 => le_trans h1 h2⟩

theorem exported_env_vars_sorted (m : ModuleEnvSpec) :
    List.Sorted (· ≤ ·) (exported_env_vars m) := by
  have h := (List.sorted_insertionSort (fun a b : String => a.toList ≤ b.toList)
    (m.attrs.map Prod.fst)).filter starts_with_xenv
  exact h.imp (fun hab => String.le_iff_toList_le.mpr hab)

theorem exported_env_vars_perm (m : ModuleEnvSpec) :
    (exported_env_vars m).Perm
      ((m.attrs.map Prod.fst).filter starts_with_xenv) :=
  (List.perm_insertionSort _ _).filter _

theorem getEnv_setenv (env : Env) (k v k' : String) :
    getEnv (setenv env k v) k' = if k' = k then some v else getEnv env k' := by
  induction env with
  | nil =>
    by_cases h : k = k'
    · simp [setenv, getEnv, h]
    · simp [setenv, getEnv, h, Ne.symm h]
  | cons p rest ih =>
    obtain ⟨k1, v1⟩ := p
    by_cases h1 : k1 = k
    · subst h1
      by_cases h2 : k1 = k'
      · subst h2
        simp [setenv, getEnv]
      · simp [setenv, getEnv, h2, Ne.symm h2]
    · by_cases h2 : k1 = k'
      · subst h2
        simp [setenv, getEnv, h1, Ne.symm h1]
      · simp [setenv, getEnv, h1, h2, ih]

theorem join_frags_ne_empty (d : String) :
    ∀ l : List String, l ≠ [] → (∀ s ∈ l, s ≠ "") → join_frags d l ≠ "" := by
  intro l
  match l with
  | [] => intro h _; exact absurd rfl h
  | [x] => intro _ h; simpa [join_frags] using h x (by simp)
  | x :: y :: t =>
    intro _ h hcontra
    rw [show join_frags d (x :: y :: t) = x ++ d ++ join_frags d (y :: t)
      from rfl] at hcontra
    have hd := congrArg String.data hcontra
    rw [String.data_append, String.data_append] at hd
    have hx : x.data = [] := (List.append_eq_nil.mp
      ((List.append_eq_nil.mp hd).1)).1
    exact h x (by simp) (String.ext hx)

theorem setup_env_step_of_no_frags (pathsep : String) (m : ModuleEnvSpec)
    (env0 : Env) (fn : String)
    (h : (attr_frags m fn).filter (· ≠ "") = []) :
    setup_env_step pathsep m env0 fn = env0 := by
  simp only [ne_eq, decide_not] at h
  simp [setup_env_step, rz_joined, h, join_frags]

theorem setup_env_step_of_frags (pathsep : String) (m : ModuleEnvSpec)
    (env0 : Env) (fn k : String)
    (h : (attr_frags m fn).filter (· ≠ "") ≠ []) :
    getEnv (setup_env_step pathsep m env0 fn) k
      = if k = var_of fn
        then some (join_frags (delim_for pathsep (var_of fn))
          ((attr_frags m fn).filter (· ≠ "")))
        else getEnv env0 k := by
  have hne : rz_joined (delim_for pathsep (var_of fn)) (attr_frags m fn) ≠ "" := by
    refine join_frags_ne_empty _ _ h (fun s hs => ?_)
    simpa using (List.mem_filter.mp hs).2
  simp only [setup_env_step]
  rw [if_neg hne, getEnv_setenv]
  rfl

theorem setup_env_loop_untouched (pathsep : String) (m : ModuleEnvSpec)
    (fns : List String) (k : String)
    (h : ∀ fn ∈ fns, var_of fn = k → (attr_frags m fn).filter (· ≠ "") = []) :
    ∀ env : Env,
      getEnv (fns.foldl (setup_env_step pathsep m) env) k = getEnv env k := by
  induction fns with
  | nil => intro env; rfl
  | cons fn rest ih =>
    intro env
    rw [List.foldl_cons, ih (fun g hg => h g (List.mem_cons_of_mem _ hg))]
    by_cases hv : var_of fn = k
    · rw [setup_env_step_of_no_frags _ _ _ _ (h fn (List.mem_cons_self _ _) hv)]
    · by_cases hfr : (attr_frags m fn).filter (· ≠ "") = []
      · rw [setup_env_step_of_no_frags _ _ _ _ hfr]
      · rw [setup_env_step_of_frags _ _ _ _ k hfr,
          if_neg (fun he => hv he.symm)]

/-- C3: environment setup enumerates the module's `xenv_`-prefixed
exporters (exactly those among the module's attributes) in lexicographic
name order; per exporter, empty/falsy fragments are discarded and the
rest are joined in yield order with the platform path-list separator when
the variable name ends in "PATH" and a single space otherwise; an
exporter left with no non-empty fragment sets nothing, and a variable
none of whose exporters produce a non-empty fragment keeps its prior
process-environment value. -/
theorem C3_setup_env (pathsep : String) (m : ModuleEnvSpec) (env : Env) :
    List.Sorted (· ≤ ·) (exported_env_vars m)
    ∧ (exported_env_vars m).Perm
        ((m.attrs.map Prod.fst).filter starts_with_xenv)
    ∧ (∀ fn env0, (attr_frags m fn).filter (· ≠ "") = [] →
        setup_env_step pathsep m env0 fn = env0)
    ∧ (∀ fn env0 k, (attr_frags m fn).filter (· ≠ "") ≠ [] →
        getEnv (setup_env_step pathsep m env0 fn) k
          = if k = var_of fn
            then some (join_frags
              (if ends_with (var_of fn) "PATH" then pathsep else " ")
              ((attr_frags m fn).filter (· ≠ "")))
            else getEnv env0 k)
    ∧ (∀ k, (∀ fn ∈ exported_env_vars m, var_of fn = k →
          (attr_frags m fn).filter (· ≠ "") = []) →
        getEnv (setup_env pathsep m env) k = getEnv env k) := by
  refine ⟨exported_env_vars_sorted m, exported_env_vars_perm m,
    fun fn env0 h => setup_env_step_of_no_frags pathsep m env0 fn h,
    fun fn env0 k h => setup_env_step_of_frags pathsep m env0 fn k h,
    fun k h => setup_env_loop_untouched pathsep m (exported_env_vars m) k h env⟩

/-- Witness for C3 on a concrete module: the `xenv_cpath` exporter joins
its two existing folders with the path-list separator, dropping the falsy
middle fragment, and a variable with no fragments keeps its prior value. -/
theorem C3_setup_env_witness :
    getEnv (setup_env_step ":" sample_env_module [("CPATH", "prior")]
        "xenv_cpath") "CPATH"
      = some "/deps/include:/deps/include/openssl"
    ∧ getEnv (setup_env ":" sample_env_module [("LDFLAGS", "-L/old")])
        "LDFLAGS" = some "-L/old" := by
  constructor
  · have h := (C3_setup_env ":" sample_env_module [("CPATH", "prior")]).2.2.2.1
      "xenv_cpath" [("CPATH", "prior")] "CPATH" (by decide)
    rw [h]
    rw [if_pos (by decide)]
    rfl
  · have h := (C3_setup_env ":" sample_env_module
      [("LDFLAGS", "-L/old")]).2.2.2.2 "LDFLAGS" (by decide)
    rw [h]
    rfl

/-! ## Debug-mode resume (C8) -/

/-- C8: in debug mode with an existing build folder, `ModuleBuilder.compile`
invokes neither unpack, nor environment setup, nor the platform build-step
dispatch, but does invoke the finalize hook; without debug mode, or when
the build folder is absent, the full unpack / environment / prepare /
build-dispatch / finalize sequence runs (given the target's platform has
a dispatch method — otherwise the code aborts, per the spec's
platform-dispatch rule). -/
theorem C8_debug_resume (x_debug folder_exists : Bool) (platform : String)
    (d : String → Bool) :
    (x_debug = true → folder_exists = true →
      module_compile_events x_debug folder_exists platform d
        = [MEvent.finalizeHook])
    ∧ ((x_debug = false ∨ folder_exists = false) → d platform = true →
      module_compile_events x_debug folder_exists platform d
        = [MEvent.unpack, MEvent.setupEnvStep, MEvent.prepareHook,
            MEvent.dispatch platform, MEvent.finalizeHook]) := by
  constructor
  · intro h1 h2
    simp [module_compile_events, h1, h2]
  · intro h1 h2
    rcases h1 with h1 | h1 <;> simp [module_compile_events, h1, h2]

/-- Witness for C8: debug rerun of an unpacked module only finalizes; a
fresh non-debug linux compile runs the full sequence. -/
theorem C8_debug_resume_witness :
    module_compile_events true true "linux" base_dispatch
        = [MEvent.finalizeHook]
    ∧ module_compile_events false true "linux" base_dispatch
        = [MEvent.unpack, MEvent.setupEnvStep, MEvent.prepareHook,
            MEvent.dispatch "linux", MEvent.finalizeHook] :=
  ⟨(C8_debug_resume true true "linux" base_dispatch).1 rfl rfl,
    (C8_debug_resume false true "linux" base_dispatch).2 (Or.inl rfl)
      (by decide)⟩

/-! ## Scoped log capture (C9) -/

/-- C9: for every module compile call, the per-module log handler
installed at the start is removed from the global logging sink on every
exit path — whether the body returns or raises — the handler reference is
reset to `None`, and the body's outcome propagates unchanged. -/
theorem C9_scoped_log_capture (s : LogState) (fresh : Nat)
    (parent_is_dir body_raises : Bool) (h0 : s.log_handler = none)
    (h1 : fresh ∉ s.root_handlers) :
    (captured_logs_run s fresh parent_is_dir body_raises).1.log_handler = none
    ∧ (captured_logs_run s fresh parent_is_dir body_raises).1.root_handlers
        = s.root_handlers
    ∧ (captured_logs_run s fresh parent_is_dir body_raises).2 = body_raises := by
  cases parent_is_dir with
  | false => simp [captured_logs_run, h0]
  | true =>
    refine ⟨rfl, ?_, rfl⟩
    show (s.root_handlers ++ [fresh]).erase fresh = s.root_handlers
    rw [List.erase_append_right _ h1]
    simp

/-- Witness for C9 on a concrete logging state, body raising. -/
theorem C9_scoped_log_capture_witness :
    (captured_logs_run (LogState.mk [7] none) 42 true true).1.log_handler
        = none
    ∧ (captured_logs_run (LogState.mk [7] none) 42 true true).1.root_handlers
        = [7]
    ∧ (captured_logs_run (LogState.mk [7] none) 42 true true).2 = true :=
  C9_scoped_log_capture (LogState.mk [7] none) 42 true true rfl (by decide)

/-! ## Target string parsing (C10) -/

theorem partition3_of_no_sep (sep : Char) :
    ∀ l : List Char, sep ∉ l → partition3 sep l = (l, false, []) := by
  intro l
  induction l with
  | nil => intro _; rfl
  | cons c cs ih =>
    intro h
    have hc : ¬ c = sep := fun hh => h (hh ▸ List.mem_cons_self _ _)
    have hcs : sep ∉ cs := fun hh => h (List.mem_cons_of_mem _ hh)
    simp [partition3, hc, ih hcs]

theorem partition3_found (sep : Char) :
    ∀ p a : List Char, sep ∉ p →
      partition3 sep (p ++ sep :: a) = (p, true, a) := by
  intro p a
  induction p with
  | nil => intro _; simp [partition3]
  | cons c cs ih =>
    intro h
    have hc : ¬ c = sep := fun hh => h (hh ▸ List.mem_cons_self _ _)
    have hcs : sep ∉ cs := fun hh => h (List.mem_cons_of_mem _ hh)
    simp [partition3, hc, ih hcs]

theorem string_ne_empty_of_data {t : String} (h : t.data ≠ []) : t ≠ "" :=
  fun hh => h (congrArg String.data hh)

/-- C10: constructing `TargetSystem` from an explicit target string with
no '-' separator, or whose part after the first '-' is empty, takes the
platform from the string and silently falls back to the host machine's
architecture; only the first '-' splits platform from architecture, so
further '-' characters belong to the architecture. -/
theorem C10_target_parsing (host_machine host_platform : String) :
    (∀ t : String, t ≠ "" → '-' ∉ t.data →
      TargetSystem.ofTarget host_machine host_platform (some t)
        = TargetSystem.mk t host_machine)
    ∧ (∀ p : List Char, p ≠ [] → '-' ∉ p →
      TargetSystem.ofTarget host_machine host_platform
          (some (String.mk (p ++ ['-'])))
        = TargetSystem.mk (String.mk p) host_machine)
    ∧ (∀ p a : List Char, '-' ∉ p →
      partition3 '-' (p ++ '-' :: a) = (p, true, a))
    ∧ (∀ p a : List Char, p ≠ [] → a ≠ [] → '-' ∉ p →
      TargetSystem.ofTarget host_machine host_platform
          (some (String.mk (p ++ '-' :: a)))
        = TargetSystem.mk (String.mk p) (String.mk a)) := by
  refine ⟨?_, ?_, fun p a h => partition3_found '-' p a h, ?_⟩
  · intro t hne hdash
    have hd : t.data ≠ [] := fun hh => hne (String.ext hh)
    rw [TargetSystem.ofTarget, if_neg hne, partition3_of_no_sep '-' t.data hdash]
    simp [hd]
  · intro p hp hdash
    have hne : String.mk (p ++ ['-']) ≠ "" :=
      string_ne_empty_of_data (by simp)
    rw [TargetSystem.ofTarget, if_neg hne,
      show (String.mk (p ++ ['-'])).data = p ++ '-' :: [] from rfl,
      partition3_found '-' p [] hdash]
    simp [hp]
  · intro p a hp ha hdash
    have hne : String.mk (p ++ '-' :: a) ≠ "" :=
      string_ne_empty_of_data (by simp)
    rw [TargetSystem.ofTarget, if_neg hne,
      show (String.mk (p ++ '-' :: a)).data = p ++ '-' :: a from rfl,
      partition3_found '-' p a hdash]
    simp [hp, ha]

/-- Witness for C10 on concrete target strings. -/
theorem C10_target_parsing_witness :
    TargetSystem.ofTarget "x86_64" "linux" (some "darwin")
        = TargetSystem.mk "darwin" "x86_64"
    ∧ TargetSystem.ofTarget "x86_64" "linux" (some "linux-")
        = TargetSystem.mk "linux" "x86_64"
    ∧ TargetSystem.ofTarget "x86_64" "linux" (some "linux-a-b")
        = TargetSystem.mk "linux" "a-b" := by
  have h := C10_target_parsing "x86_64" "linux"
  refine ⟨h.1 "darwin" (by decide) (by decide), ?_, ?_⟩
  · have h2 := h.2.1 "linux".data (by decide) (by decide)
    exact h2
  · have h4 := h.2.2.2 "linux".data "a-b".data (by decide) (by decide)
      (by decide)
    exact h4

end PortablePython
